import Mathlib

/-!
# Verification of the twitter-data-analysis signal pipeline

Shallow embedding of the core pipeline of this repository:

* `process.py`: `clean_tweet_content` (regex-based text normalizer) and the
  numeric coercion loop of `process_data`;
* `analyze.py`: `aggregate_signals` (engagement normalization, composite
  signal, 15-minute-window resampling with confidence intervals).

Python character classes (`\w`, `\s`), `str.lower()` and `str.strip()` are
modelled on their ASCII behaviour; floating-point NaN values (which arise in
`aggregate_signals` from a zero or undefined standard deviation and from
empty-window means) are modelled by `Option ℝ` with `none` for NaN, and real
arithmetic is modelled over `ℝ`.
-/

namespace TwitterSignals

/-! ## Text normalizer: `process.py`, `clean_tweet_content`

The Python source applies, in order:
1. `re.sub(r"http\S+|www\S+|https\S+", '', text)`  (remove URLs)
2. `re.sub(r'\@\w+|\#', '', text)`                 (remove mentions, `#` markers)
3. `re.sub(r'[^\w\s]', '', text)`                  (remove punctuation)
4. `text.strip()`
5. `text.lower()`
-/

/-- ASCII model of the Python regex class `\w`: a letter, digit or underscore
(code points 65–90, 97–122, 48–57, 95). -/
def pyIsWordChar (c : Char) : Bool :=
  decide ((97 ≤ c.toNat ∧ c.toNat ≤ 122) ∨ (65 ≤ c.toNat ∧ c.toNat ≤ 90) ∨
    (48 ≤ c.toNat ∧ c.toNat ≤ 57) ∨ c.toNat = 95)

/-- ASCII model of the Python regex class `\s`: space, `\t`, `\n`, `\r`,
`\v`, `\f` (code points 32, 9, 10, 13, 11, 12). -/
def pyIsSpace (c : Char) : Bool :=
  decide (c.toNat = 32 ∨ c.toNat = 9 ∨ c.toNat = 10 ∨ c.toNat = 13 ∨
    c.toNat = 11 ∨ c.toNat = 12)

/-- ASCII model of Python `str.lower()` on one character: code points 65–90
are shifted by 32, all others are unchanged. -/
def pyToLower (c : Char) : Char :=
  if 65 ≤ c.toNat ∧ c.toNat ≤ 90 then Char.ofNat (c.toNat + 32) else c

/-- Length of the match of the regex `http\S+|www\S+|https\S+` at the head of
`l`, if any.  Python tries the alternatives left to right: `http` followed by
a non-empty greedy run of non-space characters, else `www` followed by such a
run.  (The third alternative `https\S+` can never fire: any string it matches
is already matched by `http\S+` at the same position.) -/
def urlMatchLen (l : List Char) : Option Nat :=
  if l.take 4 = ['h', 't', 't', 'p'] ∧ 1 ≤ ((l.drop 4).takeWhile (fun c => !pyIsSpace c)).length then
    some (4 + ((l.drop 4).takeWhile (fun c => !pyIsSpace c)).length)
  else if l.take 3 = ['w', 'w', 'w'] ∧ 1 ≤ ((l.drop 3).takeWhile (fun c => !pyIsSpace c)).length then
    some (3 + ((l.drop 3).takeWhile (fun c => !pyIsSpace c)).length)
  else none

/-- `re.sub(r"http\S+|www\S+|https\S+", '', ·)`: scan left to right; at each
position, if the URL pattern matches, delete the match and resume scanning
after it, else keep the character.  The first argument counts characters of a
current match still to be deleted (0 when scanning normally). -/
def stripUrlsAux : Nat → List Char → List Char
  | _ + 1, [] => []
  | k + 1, _ :: cs => stripUrlsAux k cs
  | 0, [] => []
  | 0, c :: cs =>
    match urlMatchLen (c :: cs) with
    | some k => stripUrlsAux (k - 1) cs
    | none => c :: stripUrlsAux 0 cs

def stripUrls (l : List Char) : List Char := stripUrlsAux 0 l

/-- `re.sub(r'\@\w+|\#', '', ·)`: at each position, `@` followed by a
non-empty greedy run of word characters deletes the `@` and the run; a `#`
deletes just itself; anything else is kept.  The first argument counts
characters of a current match still to be deleted. -/
def stripMentionsAux : Nat → List Char → List Char
  | _ + 1, [] => []
  | k + 1, _ :: cs => stripMentionsAux k cs
  | 0, [] => []
  | 0, c :: cs =>
    if c = '@' ∧ 1 ≤ (cs.takeWhile pyIsWordChar).length then
      stripMentionsAux (cs.takeWhile pyIsWordChar).length cs
    else if c = '#' then stripMentionsAux 0 cs
    else c :: stripMentionsAux 0 cs

def stripMentions (l : List Char) : List Char := stripMentionsAux 0 l

/-- `re.sub(r'[^\w\s]', '', ·)`: keep exactly the word and whitespace
characters. -/
def stripPunct (l : List Char) : List Char :=
  l.filter (fun c => pyIsWordChar c || pyIsSpace c)

/-- Python `str.strip()`: drop leading and trailing whitespace. -/
def pyStrip (l : List Char) : List Char :=
  ((l.dropWhile pyIsSpace).reverse.dropWhile pyIsSpace).reverse

/-- Python `str.lower()`. -/
def pyLower (l : List Char) : List Char := l.map pyToLower

/-- `process.py`, `clean_tweet_content` on a string input (the
`isinstance(text, str)` guard maps any non-string input to `""` before this
function body is reached; see `clean_tweet_field`). -/
def clean_tweet_content (s : String) : String :=
  String.mk (pyLower (pyStrip (stripPunct (stripMentions (stripUrls s.data)))))

/-- `clean_tweet_content` including the non-string guard: a missing / non-string
`content` value (`none`) yields `""`. -/
def clean_tweet_field : Option String → String
  | none => ""
  | some s => clean_tweet_content s

/-! ## Numeric coercion: `process.py`, `process_data`, step 4

```
df[col] = pd.to_numeric(df[col], errors='coerce').fillna(0).astype(int)
```
A raw JSON cell is an integer, a string, or null/missing.  `pd.to_numeric`
with `errors='coerce'` keeps numbers, parses numeric strings, and turns
everything else (and nulls) into NaN; `.fillna(0)` replaces NaN by 0;
`.astype(int)` fixes the integer type. -/

/-- A raw engagement-counter cell as read from `raw_tweets.json`: an integer
literal, a string, or null/missing. -/
inductive RawCell where
  | num (n : ℤ)
  | str (s : String)
  | null
deriving DecidableEq

/-- Parse a decimal integer literal, with an optional leading `-` sign,
as `pd.to_numeric` does on a string cell (non-numeric strings give NaN). -/
def parseIntLit (s : String) : Option ℤ :=
  let digits (l : List Char) : Option ℕ :=
    if l = [] then none
    else l.foldl (fun acc c =>
      acc.bind (fun n => if c.isDigit then some (n * 10 + (c.toNat - 48)) else none)) (some 0)
  match s.data with
  | '-' :: rest => (digits rest).map (fun n => -(n : ℤ))
  | l => (digits l).map (fun n => (n : ℤ))

/-- `pd.to_numeric(·, errors='coerce')` on one cell: numbers pass through,
numeric strings parse, everything else becomes NaN (`none`). -/
def to_numeric_coerce : RawCell → Option ℤ
  | .num n => some n
  | .str s => parseIntLit s
  | .null => none

/-- One cell after `.fillna(0).astype(int)`. -/
def coerce_counter (v : RawCell) : ℤ := (to_numeric_coerce v).getD 0

/-! ## Signal aggregation: `analyze.py`, `aggregate_signals`

```
def aggregate_signals(df, window):
    if df.empty or 'timestamp_utc' not in df.columns:
        return pd.DataFrame()
    df.set_index('timestamp_utc', inplace=True)
    df['engagement'] = np.log1p(df['likes'] + df['retweets'] * 1.5 + df['replies'])
    df['engagement_normalized'] = (df['engagement'] - df['engagement'].mean()) / df['engagement'].std()
    df['composite_signal'] = (df['sentiment'] * 0.7) + (df['engagement_normalized'] * 0.3)
    aggregated = df['composite_signal'].resample(window).agg(['mean', 'std', 'count'])
    aggregated['std'].fillna(0, inplace=True)
    z_score = 1.96
    aggregated['ci_lower'] = aggregated['mean'] - z_score * (aggregated['std'] / np.sqrt(aggregated['count']))
    aggregated['ci_upper'] = aggregated['mean'] + z_score * (aggregated['std'] / np.sqrt(aggregated['count']))
    return aggregated.dropna()
```

Timestamps are modelled in minutes since the epoch (`ℕ`); the `'15T'` window
is `w = 15`.  `pandas.Series.std` uses the sample standard deviation
(`ddof = 1`), which is NaN for a single value; dividing the centred
engagement by a NaN or zero standard deviation gives NaN for every row of the
batch (a zero sample standard deviation forces every value to equal the mean,
so the division is 0/0 there).  NaN is modelled as `none : Option ℝ`. -/

/-- One input row of `aggregate_signals`: the columns the function reads.
`sentiment` was added by `generate_sentiment_signal`; `likes`, `retweets`,
`replies` come from the scraper. -/
structure Rec where
  timestamp : ℕ
  sentiment : ℝ
  likes : ℝ
  retweets : ℝ
  replies : ℝ

/-- `df['engagement'] = np.log1p(df['likes'] + df['retweets'] * 1.5 + df['replies'])`
(`np.log1p x = log (1 + x)`). -/
noncomputable def engagement (r : Rec) : ℝ :=
  Real.log (1 + (r.likes + r.retweets * 1.5 + r.replies))

/-- The engagement column of the batch. -/
noncomputable def engList (df : List Rec) : List ℝ := df.map engagement

/-- `df['engagement'].mean()`. -/
noncomputable def engMean (df : List Rec) : ℝ :=
  (engList df).sum / (engList df).length

/-- The sample variance of the engagement column (`ddof = 1`). -/
noncomputable def engVar (df : List Rec) : ℝ :=
  ((engList df).map (fun e => (e - engMean df) ^ 2)).sum / ((engList df).length - 1)

/-- `df['engagement'].std()`: the sample standard deviation, NaN (`none`) when
the batch has fewer than two rows. -/
noncomputable def engStd (df : List Rec) : Option ℝ :=
  if df.length ≤ 1 then none else some (Real.sqrt (engVar df))

/-- `df['engagement_normalized'] = (df['engagement'] - mean) / std` for one row:
NaN (`none`) when the standard deviation is NaN or zero (for rows of the
batch the numerator is then 0, so the division is 0/0). -/
noncomputable def engagement_normalized (df : List Rec) (r : Rec) : Option ℝ :=
  match engStd df with
  | none => none
  | some s => if s = 0 then none else some ((engagement r - engMean df) / s)

/-- `df['composite_signal'] = (df['sentiment'] * 0.7) + (df['engagement_normalized'] * 0.3)`
for one row; NaN propagates. -/
noncomputable def composite_signal (df : List Rec) (r : Rec) : Option ℝ :=
  (engagement_normalized df r).map (fun en => r.sentiment * 0.7 + en * 0.3)

/-- One row of the aggregated output frame. -/
structure AggWin where
  window_start : ℕ
  mean : ℝ
  std : ℝ
  count : ℕ
  ci_lower : ℝ
  ci_upper : ℝ

/-- Index of the fixed-width window a timestamp falls into (left-closed
intervals aligned to the epoch, as `resample('15T')` aligns to midnight,
itself a multiple of 15 minutes). -/
def winIdx (w t : ℕ) : ℕ := t / w

/-- The composite values falling into window `i` that are not NaN (pandas
`mean`/`std`/`count` skip NaN entries). -/
def winVals (vals : List (ℕ × Option ℝ)) (w i : ℕ) : List ℝ :=
  (vals.filter (fun p => winIdx w p.1 == i)).filterMap Prod.snd

/-- Per-window `count`: the number of non-NaN composite values. -/
def wcount (vals : List (ℕ × Option ℝ)) (w i : ℕ) : ℕ := (winVals vals w i).length

/-- Per-window `mean` of the composite signal. -/
noncomputable def wmean (vals : List (ℕ × Option ℝ)) (w i : ℕ) : ℝ :=
  (winVals vals w i).sum / wcount vals w i

/-- Per-window `std` after `aggregated['std'].fillna(0, inplace=True)`: the
sample standard deviation, with the NaN it takes on windows of fewer than two
values replaced by 0. -/
noncomputable def wstd (vals : List (ℕ × Option ℝ)) (w i : ℕ) : ℝ :=
  if wcount vals w i ≤ 1 then 0
  else Real.sqrt (((winVals vals w i).map (fun x => (x - wmean vals w i) ^ 2)).sum /
    (wcount vals w i - 1))

/-- `aggregated['ci_lower'] = mean - 1.96 * (std / sqrt count)`. -/
noncomputable def wciLower (vals : List (ℕ × Option ℝ)) (w i : ℕ) : ℝ :=
  wmean vals w i - 1.96 * (wstd vals w i / Real.sqrt (wcount vals w i))

/-- `aggregated['ci_upper'] = mean + 1.96 * (std / sqrt count)`. -/
noncomputable def wciUpper (vals : List (ℕ × Option ℝ)) (w i : ℕ) : ℝ :=
  wmean vals w i + 1.96 * (wstd vals w i / Real.sqrt (wcount vals w i))

/-- The aggregated row for window `i`, labelled by the window's left edge. -/
noncomputable def mkWin (vals : List (ℕ × Option ℝ)) (w i : ℕ) : AggWin :=
  ⟨i * w, wmean vals w i, wstd vals w i, wcount vals w i,
    wciLower vals w i, wciUpper vals w i⟩

/-- First window index of the resample range (`resample` spans from the
first to the last timestamp of the index). -/
def loIdx (vals : List (ℕ × Option ℝ)) (w : ℕ) : ℕ :=
  winIdx w ((vals.map Prod.fst).min?.getD 0)

/-- Last window index of the resample range. -/
def hiIdx (vals : List (ℕ × Option ℝ)) (w : ℕ) : ℕ :=
  winIdx w ((vals.map Prod.fst).max?.getD 0)

/-- `df['composite_signal'].resample(window).agg(['mean','std','count'])`
followed by the `fillna`, the confidence-interval columns and `.dropna()`.
`resample` emits every window from the first to the last timestamp; on a
window with `count = 0` the `mean` (and both interval bounds) are NaN, so
`.dropna()` removes exactly the windows without contributing values. -/
noncomputable def resampleAgg (vals : List (ℕ × Option ℝ)) (w : ℕ) : List AggWin :=
  ((List.range (hiIdx vals w - loIdx vals w + 1)).map (fun k => loIdx vals w + k)).filterMap
    (fun i => if wcount vals w i = 0 then none else some (mkWin vals w i))

/-- `analyze.py`, `aggregate_signals`: the early return for an empty frame or
a missing `timestamp_utc` column (`hasTsCol`), then the composite-signal
columns and the windowed aggregation. -/
noncomputable def aggregate_signals (hasTsCol : Bool) (df : List Rec) (w : ℕ) : List AggWin :=
  if df.isEmpty || !hasTsCol then []
  else resampleAgg (df.map (fun r => (r.timestamp, composite_signal df r))) w

/-! ## Frame effect of `aggregate_signals` on its argument

`aggregate_signals` mutates the caller's frame: `df.set_index('timestamp_utc',
inplace=True)` replaces the index by the timestamp column (removing it from
the columns), and the three assignments `df['engagement'] = …`,
`df['engagement_normalized'] = …`, `df['composite_signal'] = …` add columns
to the same object.  The early return at the top leaves the frame untouched.
The table-shape state visible to the caller is modelled by the row count,
whether the index is the timestamp column, and the column list. -/

structure TableState where
  rows : ℕ
  indexed_by_timestamp : Bool
  columns : List String
deriving DecidableEq

/-- The state of the caller's frame after `aggregate_signals` returns. -/
def aggregate_signals_frame (t : TableState) : TableState :=
  if t.rows = 0 ∨ "timestamp_utc" ∉ t.columns then t
  else
    { rows := t.rows
      indexed_by_timestamp := true
      columns := (t.columns.erase "timestamp_utc") ++
        ["engagement", "engagement_normalized", "composite_signal"] }

/-! ## Character-level lemmas for the ASCII model -/

lemma char_toNat_ofNat {n : ℕ} (h : n < 55296) : (Char.ofNat n).toNat = n := by
  unfold Char.ofNat
  rw [dif_pos (Or.inl h)]
  rfl

lemma pyToLower_toNat (c : Char) :
    (pyToLower c).toNat = if 65 ≤ c.toNat ∧ c.toNat ≤ 90 then c.toNat + 32 else c.toNat := by
  unfold pyToLower
  split
  · next h => exact char_toNat_ofNat (by omega)
  · rfl

lemma pyToLower_eq_self {c : Char} (h : ¬(65 ≤ c.toNat ∧ c.toNat ≤ 90)) : pyToLower c = c := by
  unfold pyToLower
  rw [if_neg h]

lemma pyToLower_idem (c : Char) : pyToLower (pyToLower c) = pyToLower c := by
  by_cases h : 65 ≤ c.toNat ∧ c.toNat ≤ 90
  · apply pyToLower_eq_self
    rw [pyToLower_toNat, if_pos h]
    omega
  · rw [pyToLower_eq_self h, pyToLower_eq_self h]

lemma pyIsSpace_pyToLower (c : Char) : pyIsSpace (pyToLower c) = pyIsSpace c := by
  unfold pyIsSpace
  rw [pyToLower_toNat]
  split
  · next h => rw [decide_eq_decide]; omega
  · rfl

lemma wos_pyToLower {c : Char} (h : (pyIsWordChar c || pyIsSpace c) = true) :
    (pyIsWordChar (pyToLower c) || pyIsSpace (pyToLower c)) = true := by
  rw [pyIsSpace_pyToLower]
  unfold pyIsWordChar pyIsSpace at h ⊢
  rw [pyToLower_toNat]
  simp only [Bool.or_eq_true, decide_eq_true_eq] at h ⊢
  split <;> omega

/-! ## Claim C2: normalization of Scenario C's raw text -/

/-- C2, counterexample: the text normalizer does not map
`"Check http://x.co #nifty50 @trader great day!!"` to
`"nifty50 trader great day"`. -/
theorem c2_counterexample :
    clean_tweet_content "Check http://x.co #nifty50 @trader great day!!" ≠
      "nifty50 trader great day" := by
  decide

/-- C2, amended: the normalizer maps the raw text
`"Check http://x.co #nifty50 @trader great day!!"` to exactly
`"check  nifty50  great day"`: the URL is removed, the hashtag marker is
stripped with the hashtag word retained, the mention is removed entirely
(marker and handle word), punctuation is removed, the result is lowercased,
and a double space is left where each removed token stood. -/
theorem c2_normalizer_scenario :
    clean_tweet_content "Check http://x.co #nifty50 @trader great day!!" =
      "check  nifty50  great day" := by
  decide

/-! ## Claim C8: empty batch yields empty aggregation -/

/-- C8: an empty input batch, or a batch lacking the `timestamp_utc` column,
makes `aggregate_signals` return an empty output (the early-return guard),
for every window width. -/
theorem c8_empty_batch :
    (∀ (hasTs : Bool) (w : ℕ), aggregate_signals hasTs [] w = []) ∧
    (∀ (df : List Rec) (w : ℕ), aggregate_signals false df w = []) := by
  constructor <;> intros <;> simp [aggregate_signals]

/-! ## Claim C10: `aggregate_signals` mutates its input frame -/

/-- C10: when the guard passes (non-empty frame with a `timestamp_utc`
column), `aggregate_signals` mutates the caller's frame: the index becomes
the timestamp column and the `engagement`, `engagement_normalized` and
`composite_signal` columns are added, so a frame that was not yet indexed by
timestamp is no longer the object the caller passed in. -/
theorem c10_frame_effect (t : TableState) (hrows : 0 < t.rows)
    (hts : "timestamp_utc" ∈ t.columns) :
    (aggregate_signals_frame t).indexed_by_timestamp = true ∧
    "engagement" ∈ (aggregate_signals_frame t).columns ∧
    "engagement_normalized" ∈ (aggregate_signals_frame t).columns ∧
    "composite_signal" ∈ (aggregate_signals_frame t).columns ∧
    (t.indexed_by_timestamp = false → aggregate_signals_frame t ≠ t) := by
  have hguard : ¬(t.rows = 0 ∨ "timestamp_utc" ∉ t.columns) := by
    push_neg
    exact ⟨by omega, hts⟩
  unfold aggregate_signals_frame
  rw [if_neg hguard]
  refine ⟨rfl, ?_, ?_, ?_, ?_⟩
  · exact List.mem_append_right _ (by simp)
  · exact List.mem_append_right _ (by simp)
  · exact List.mem_append_right _ (by simp)
  · intro hidx heq
    have := congrArg TableState.indexed_by_timestamp heq
    simp only at this
    rw [hidx] at this
    exact Bool.true_eq_false.mp this

/-- C10, witness: the mutation theorem at a concrete frame shape. -/
theorem c10_frame_effect_witness :
    (aggregate_signals_frame ⟨2, false, ["id", "timestamp_utc", "sentiment", "likes"]⟩).indexed_by_timestamp = true ∧
    aggregate_signals_frame ⟨2, false, ["id", "timestamp_utc", "sentiment", "likes"]⟩ ≠
      ⟨2, false, ["id", "timestamp_utc", "sentiment", "likes"]⟩ :=
  ⟨(c10_frame_effect _ (by decide) (by decide)).1,
    (c10_frame_effect _ (by decide) (by decide)).2.2.2.2 rfl⟩

/-! ## Claim C3: engagement-counter coercion -/

/-- C3, counterexample: a negative numeric input cell is not clamped: the
coerced counter for input `-5` is `-5`, which is not a non-negative
integer. -/
theorem c3_counterexample :
    coerce_counter (RawCell.num (-5)) = -5 ∧ ¬(0 ≤ coerce_counter (RawCell.num (-5))) := by
  decide

/-- C3, amended: after the coercion step of `process_data` each counter is an
integer; missing or non-numeric values are coerced to 0 rather than failing,
and numeric values pass through unchanged — so the result is non-negative
whenever the numeric input is, but negative numeric inputs are not clamped. -/
theorem c3_counter_coercion (v : RawCell) (n : ℤ) :
    (to_numeric_coerce v = none → coerce_counter v = 0) ∧
    (to_numeric_coerce v = some n → coerce_counter v = n) ∧
    (v = RawCell.num n → 0 ≤ n → 0 ≤ coerce_counter v) := by
  refine ⟨fun h => ?_, fun h => ?_, ?_⟩
  · simp [coerce_counter, h]
  · simp [coerce_counter, h]
  · rintro rfl hn
    simpa [coerce_counter, to_numeric_coerce] using hn

/-- C3, witness: a non-numeric string and a null cell coerce to 0; a
non-negative numeric cell stays non-negative. -/
theorem c3_counter_coercion_witness :
    coerce_counter (RawCell.str "n/a") = 0 ∧ coerce_counter RawCell.null = 0 ∧
    0 ≤ coerce_counter (RawCell.num 7) :=
  ⟨(c3_counter_coercion (RawCell.str "n/a") 0).1 (by decide),
    (c3_counter_coercion RawCell.null 0).1 rfl,
    (c3_counter_coercion (RawCell.num 7) 7).2.2 rfl (by decide)⟩

/-! ## Claim C1: zero-variance engagement normalization -/

/-- A single record with `likes = 0`, `retweets = 0`, `replies = 0`. -/
noncomputable def rec0 : Rec := ⟨0, 0, 0, 0, 0⟩

/-- C1, counterexample: a single-record batch with all-zero counters gets
`engagement_magnitude = 0` but `engagement_normalized` NaN (modelled `none`),
not 0: the sample standard deviation of a one-row batch is NaN and the code
divides by it. -/
theorem c1_counterexample :
    engagement rec0 = 0 ∧ engagement_normalized [rec0] rec0 = none ∧
    engagement_normalized [rec0] rec0 ≠ some 0 := by
  have hn : engagement_normalized [rec0] rec0 = none := by
    unfold engagement_normalized engStd
    norm_num
  refine ⟨?_, hn, by rw [hn]; simp⟩
  unfold engagement rec0
  norm_num

/-- C1, amended: for every batch whose engagement magnitudes have zero
variance (all equal, which covers the single-record case), the normalization
step yields NaN (`none`) — never 0 — for every record, because the zero or
NaN standard deviation is divided into the centred engagement; a lone record
with `likes = retweets = replies = 0` still has `engagement_magnitude = 0`
(`log1p 0 = 0`). -/
theorem c1_zero_variance_nan :
    (∀ (df : List Rec) (r : Rec), (∀ e₁ ∈ engList df, ∀ e₂ ∈ engList df, e₁ = e₂) →
      engagement_normalized df r = none) ∧
    (∀ r : Rec, r.likes = 0 → r.retweets = 0 → r.replies = 0 → engagement r = 0) := by
  constructor
  · intro df r hall
    unfold engagement_normalized
    cases hs : engStd df with
    | none => rfl
    | some s =>
      unfold engStd at hs
      by_cases hlen : df.length ≤ 1
      · rw [if_pos hlen] at hs
        exact Option.noConfusion hs
      rw [if_neg hlen] at hs
      have hs' : s = Real.sqrt (engVar df) := (Option.some.inj hs).symm
      have hlist : (engList df).length = df.length := by
        unfold engList
        exact List.length_map _ _
      have hne : engList df ≠ [] := by
        intro hnil
        rw [hnil, List.length_nil] at hlist
        omega
      obtain ⟨e₀, he₀⟩ : ∃ e, e ∈ engList df := List.exists_mem_of_ne_nil _ hne
      have hallc : ∀ x ∈ engList df, x = e₀ := fun x hx => hall x hx e₀ he₀
      have hlpos : (0 : ℝ) < (engList df).length := by
        have : 2 ≤ (engList df).length := by omega
        exact_mod_cast Nat.lt_of_lt_of_le Nat.zero_lt_two this
      have hmean : engMean df = e₀ := by
        unfold engMean
        rw [List.sum_eq_card_nsmul _ e₀ hallc, nsmul_eq_mul, mul_comm, mul_div_assoc,
          div_self (ne_of_gt hlpos), mul_one]
      have hvar : engVar df = 0 := by
        unfold engVar
        rw [List.sum_eq_zero, zero_div]
        intro x hx
        simp only [List.mem_map] at hx
        obtain ⟨e, he, rfl⟩ := hx
        rw [hallc e he, hmean]
        ring
      rw [hs', hvar, Real.sqrt_zero]
      simp
  · intro r hl hrt hrp
    unfold engagement
    rw [hl, hrt, hrp]
    norm_num

/-- C1, witness: the amended statement applied to the single-record batch of
Scenario B. -/
theorem c1_zero_variance_nan_witness :
    engagement_normalized [rec0] rec0 = none ∧ engagement rec0 = 0 :=
  ⟨c1_zero_variance_nan.1 [rec0] rec0 (by
      intro e₁ h₁ e₂ h₂
      simp only [engList, List.map_cons, List.map_nil, List.mem_singleton] at h₁ h₂
      rw [h₁, h₂]),
    c1_zero_variance_nan.2 rec0 rfl rfl rfl⟩

/-! ## Claim C4: confidence-interval invariants of the aggregated windows -/

lemma wstd_nonneg (vals : List (ℕ × Option ℝ)) (w i : ℕ) : 0 ≤ wstd vals w i := by
  unfold wstd
  split
  · exact le_refl 0
  · exact Real.sqrt_nonneg _

/-- C4: every window of the aggregated output has `count > 0` and
`ci_lower ≤ mean ≤ ci_upper`; a window with `count = 1` has its standard
deviation forced to 0 (by the `fillna`), so both interval bounds equal the
mean. -/
theorem c4_confidence_bounds (vals : List (ℕ × Option ℝ)) (w : ℕ) (a : AggWin)
    (ha : a ∈ resampleAgg vals w) :
    0 < a.count ∧ a.ci_lower ≤ a.mean ∧ a.mean ≤ a.ci_upper ∧
    (a.count = 1 → a.std = 0 ∧ a.ci_lower = a.mean ∧ a.ci_upper = a.mean) := by
  unfold resampleAgg at ha
  rw [List.mem_filterMap] at ha
  obtain ⟨i, _, hfi⟩ := ha
  by_cases h0 : wcount vals w i = 0
  · rw [if_pos h0] at hfi
    exact Option.noConfusion hfi
  rw [if_neg h0] at hfi
  have ha' : a = mkWin vals w i := (Option.some.inj hfi).symm
  subst ha'
  have hnn : 0 ≤ 1.96 * (wstd vals w i / Real.sqrt (wcount vals w i)) :=
    mul_nonneg (by norm_num) (div_nonneg (wstd_nonneg vals w i) (Real.sqrt_nonneg _))
  simp only [mkWin]
  refine ⟨Nat.pos_of_ne_zero h0, ?_, ?_, ?_⟩
  · unfold wciLower
    linarith
  · unfold wciUpper
    linarith
  · intro hc1
    have hstd : wstd vals w i = 0 := by
      unfold wstd
      rw [if_pos (by omega)]
    refine ⟨hstd, ?_, ?_⟩
    · unfold wciLower
      rw [hstd]
      simp
    · unfold wciUpper
      rw [hstd]
      simp

/-- C4, witness: the bounds at a concrete single-value window. -/
theorem c4_confidence_bounds_witness :
    (mkWin [((0 : ℕ), some (1 : ℝ))] 15 0).count = 1 ∧
    (mkWin [((0 : ℕ), some (1 : ℝ))] 15 0).std = 0 ∧
    (mkWin [((0 : ℕ), some (1 : ℝ))] 15 0).ci_lower = (mkWin [((0 : ℕ), some (1 : ℝ))] 15 0).mean ∧
    (mkWin [((0 : ℕ), some (1 : ℝ))] 15 0).ci_upper = (mkWin [((0 : ℕ), some (1 : ℝ))] 15 0).mean := by
  have h := c4_confidence_bounds [((0 : ℕ), some (1 : ℝ))] 15 (mkWin [((0 : ℕ), some (1 : ℝ))] 15 0)
    (by rw [show resampleAgg [((0 : ℕ), some (1 : ℝ))] 15 = [mkWin [((0 : ℕ), some (1 : ℝ))] 15 0] from rfl]
        exact List.mem_singleton.mpr rfl)
  have hc : (mkWin [((0 : ℕ), some (1 : ℝ))] 15 0).count = 1 := rfl
  exact ⟨hc, (h.2.2.2 hc).1, (h.2.2.2 hc).2.1, (h.2.2.2 hc).2.2⟩

/-! ## Claim C6: Scenario A, three records in one 15-minute window -/

/-- Scenario A: three records in the same 15-minute window whose composite
scores are `0.2`, `0.4`, `0.6` (timestamps in minutes). -/
noncomputable def scenarioA : List (ℕ × Option ℝ) :=
  [(0, some 0.2), (5, some 0.4), (10, some 0.6)]

/-- C6: on Scenario A the aggregator produces a single window starting at 0
with `mean = 0.4`, sample `std = 0.2`, `count = 3`, `ci_lower ≈ 0.174` and
`ci_upper ≈ 0.626` (to within `1/1000`). -/
theorem c6_scenarioA_window :
    resampleAgg scenarioA 15 = [mkWin scenarioA 15 0] ∧
    (mkWin scenarioA 15 0).window_start = 0 ∧
    wcount scenarioA 15 0 = 3 ∧
    wmean scenarioA 15 0 = 0.4 ∧
    wstd scenarioA 15 0 = 0.2 ∧
    |wciLower scenarioA 15 0 - 0.174| ≤ 1 / 1000 ∧
    |wciUpper scenarioA 15 0 - 0.626| ≤ 1 / 1000 := by
  have hvals : winVals scenarioA 15 0 = [0.2, 0.4, 0.6] := rfl
  have hcount : wcount scenarioA 15 0 = 3 := rfl
  have hmean : wmean scenarioA 15 0 = 0.4 := by
    unfold wmean
    rw [hvals, hcount]
    norm_num [List.sum_cons]
  have hstd : wstd scenarioA 15 0 = 0.2 := by
    have harg : ((winVals scenarioA 15 0).map (fun x => (x - wmean scenarioA 15 0) ^ 2)).sum /
        ((wcount scenarioA 15 0 : ℝ) - 1) = (0.2 : ℝ) ^ 2 := by
      rw [hvals, hmean, hcount]
      norm_num [List.map_cons, List.sum_cons]
    unfold wstd
    rw [if_neg (by rw [hcount]; norm_num), harg, Real.sqrt_sq (by norm_num)]
  have hsq3a : (1.732 : ℝ) < Real.sqrt 3 := (Real.lt_sqrt (by norm_num)).mpr (by norm_num)
  have hsq3b : Real.sqrt 3 < 1.7321 := (Real.sqrt_lt' (by norm_num)).mpr (by norm_num)
  have hq1 : 1.96 * ((0.2 : ℝ) / Real.sqrt 3) < 1.96 * (0.2 / 1.732) :=
    mul_lt_mul_of_pos_left
      (div_lt_div_of_pos_left (by norm_num) (by norm_num) hsq3a) (by norm_num)
  have hq2 : 1.96 * ((0.2 : ℝ) / 1.7321) < 1.96 * (0.2 / Real.sqrt 3) :=
    mul_lt_mul_of_pos_left
      (div_lt_div_of_pos_left (by norm_num) (lt_trans (by norm_num) hsq3a) hsq3b) (by norm_num)
  refine ⟨rfl, rfl, hcount, hmean, hstd, ?_, ?_⟩
  · unfold wciLower
    rw [hmean, hstd, hcount, show ((3 : ℕ) : ℝ) = 3 by norm_num, abs_le]
    constructor <;> linarith
  · unfold wciUpper
    rw [hmean, hstd, hcount, show ((3 : ℕ) : ℝ) = 3 by norm_num, abs_le]
    constructor <;> linarith

/-! ## Claim C7: output ordered by window start, empty windows absent -/

/-- Scenario D: two records in the first and third 15-minute windows
(minutes 5 and 40), none in the middle window (minutes 15–30). -/
noncomputable def scenarioD : List (ℕ × Option ℝ) :=
  [(5, some 0.1), (40, some 0.3)]

/-- C7: the aggregated output is ordered by `window_start` ascending, every
emitted window has at least one contributing record (empty windows are
dropped by `dropna`, never emitted with zero or null statistics), and on
Scenario D the output is exactly the two windows starting at minutes 0 and
30, the record-free middle window (whose `count` is 0) being absent. -/
theorem c7_sorted_sparse :
    (∀ (vals : List (ℕ × Option ℝ)) (w : ℕ),
      ((resampleAgg vals w).map AggWin.window_start).Pairwise (· ≤ ·)) ∧
    (∀ (vals : List (ℕ × Option ℝ)) (w : ℕ) (a : AggWin),
      a ∈ resampleAgg vals w → 0 < a.count) ∧
    (resampleAgg scenarioD 15).map AggWin.window_start = [0, 30] ∧
    wcount scenarioD 15 1 = 0 := by
  refine ⟨?_, ?_, rfl, rfl⟩
  · intro vals w
    unfold resampleAgg
    have hidx : ((List.range (hiIdx vals w - loIdx vals w + 1)).map
        (fun k => loIdx vals w + k)).Pairwise (· < ·) :=
      (List.pairwise_lt_range _).map _ (fun a b h => by omega)
    have hfm : ((List.range (hiIdx vals w - loIdx vals w + 1)).map
        (fun k => loIdx vals w + k)).filterMap
          (fun i => if wcount vals w i = 0 then none else some (mkWin vals w i))
        |>.Pairwise (fun x y : AggWin => x.window_start ≤ y.window_start) := by
      refine List.Pairwise.filterMap _ ?_ hidx
      intro i j hij b hb b' hb'
      rw [Option.mem_def] at hb hb'
      split at hb
      · exact Option.noConfusion hb
      split at hb'
      · exact Option.noConfusion hb'
      have hb1 : b = mkWin vals w i := (Option.some.inj hb).symm
      have hb2 : b' = mkWin vals w j := (Option.some.inj hb').symm
      subst hb1
      subst hb2
      exact Nat.mul_le_mul_right w (le_of_lt hij)
    exact hfm.map AggWin.window_start (fun a b h => h)
  · intro vals w a ha
    unfold resampleAgg at ha
    rw [List.mem_filterMap] at ha
    obtain ⟨i, _, hfi⟩ := ha
    by_cases h0 : wcount vals w i = 0
    · rw [if_pos h0] at hfi
      exact Option.noConfusion hfi
    rw [if_neg h0] at hfi
    have ha' : a = mkWin vals w i := (Option.some.inj hfi).symm
    subst ha'
    exact Nat.pos_of_ne_zero h0

/-- C7, witness: the positivity of `count` applied to the first window of
Scenario D's output. -/
theorem c7_sorted_sparse_witness : 0 < (mkWin scenarioD 15 0).count :=
  c7_sorted_sparse.2.1 scenarioD 15 (mkWin scenarioD 15 0)
    (by rw [show resampleAgg scenarioD 15 = [mkWin scenarioD 15 0, mkWin scenarioD 15 2] from rfl]
        exact List.mem_cons_self _ _)

/-! ## Claim C9: aggregation is order-independent -/

lemma min?_perm {l₁ l₂ : List ℕ} (h : l₁.Perm l₂) : l₁.min? = l₂.min? := by
  cases h1 : l₁.min? with
  | none =>
    symm
    rw [List.min?_eq_none_iff] at h1 ⊢
    subst h1
    exact h.symm.eq_nil
  | some m =>
    symm
    rw [List.min?_eq_some_iff'] at h1 ⊢
    exact ⟨h.mem_iff.mp h1.1, fun b hb => h1.2 b (h.mem_iff.mpr hb)⟩

lemma max?_perm {l₁ l₂ : List ℕ} (h : l₁.Perm l₂) : l₁.max? = l₂.max? := by
  cases h1 : l₁.max? with
  | none =>
    symm
    rw [List.max?_eq_none_iff] at h1 ⊢
    subst h1
    exact h.symm.eq_nil
  | some m =>
    symm
    rw [List.max?_eq_some_iff'] at h1 ⊢
    exact ⟨h.mem_iff.mp h1.1, fun b hb => h1.2 b (h.mem_iff.mpr hb)⟩

section PermInvariance

variable {v₁ v₂ : List (ℕ × Option ℝ)} {df₁ df₂ : List Rec}

lemma winVals_perm (h : v₁.Perm v₂) (w i : ℕ) :
    (winVals v₁ w i).Perm (winVals v₂ w i) :=
  (h.filter _).filterMap Prod.snd

lemma wcount_perm (h : v₁.Perm v₂) (w i : ℕ) : wcount v₁ w i = wcount v₂ w i :=
  (winVals_perm h w i).length_eq

lemma wmean_perm (h : v₁.Perm v₂) (w i : ℕ) : wmean v₁ w i = wmean v₂ w i := by
  unfold wmean
  rw [(winVals_perm h w i).sum_eq, wcount_perm h w i]

lemma wstd_perm (h : v₁.Perm v₂) (w i : ℕ) : wstd v₁ w i = wstd v₂ w i := by
  unfold wstd
  rw [wcount_perm h w i, wmean_perm h w i,
    ((winVals_perm h w i).map (fun x => (x - wmean v₂ w i) ^ 2)).sum_eq]

lemma wciLower_perm (h : v₁.Perm v₂) (w i : ℕ) : wciLower v₁ w i = wciLower v₂ w i := by
  unfold wciLower
  rw [wcount_perm h w i, wmean_perm h w i, wstd_perm h w i]

lemma wciUpper_perm (h : v₁.Perm v₂) (w i : ℕ) : wciUpper v₁ w i = wciUpper v₂ w i := by
  unfold wciUpper
  rw [wcount_perm h w i, wmean_perm h w i, wstd_perm h w i]

lemma mkWin_perm (h : v₁.Perm v₂) (w i : ℕ) : mkWin v₁ w i = mkWin v₂ w i := by
  unfold mkWin
  rw [wcount_perm h w i, wmean_perm h w i, wstd_perm h w i, wciLower_perm h w i,
    wciUpper_perm h w i]

lemma loIdx_perm (h : v₁.Perm v₂) (w : ℕ) : loIdx v₁ w = loIdx v₂ w := by
  unfold loIdx
  rw [min?_perm (h.map Prod.fst)]

lemma hiIdx_perm (h : v₁.Perm v₂) (w : ℕ) : hiIdx v₁ w = hiIdx v₂ w := by
  unfold hiIdx
  rw [max?_perm (h.map Prod.fst)]

lemma resampleAgg_perm (h : v₁.Perm v₂) (w : ℕ) : resampleAgg v₁ w = resampleAgg v₂ w := by
  unfold resampleAgg
  rw [loIdx_perm h w, hiIdx_perm h w]
  exact List.filterMap_congr (fun i _ => by rw [wcount_perm h w i, mkWin_perm h w i])

lemma engList_perm (h : df₁.Perm df₂) : (engList df₁).Perm (engList df₂) :=
  h.map engagement

lemma engMean_perm (h : df₁.Perm df₂) : engMean df₁ = engMean df₂ := by
  unfold engMean
  rw [(engList_perm h).sum_eq, (engList_perm h).length_eq]

lemma engVar_perm (h : df₁.Perm df₂) : engVar df₁ = engVar df₂ := by
  unfold engVar
  rw [engMean_perm h, ((engList_perm h).map (fun e => (e - engMean df₂) ^ 2)).sum_eq,
    (engList_perm h).length_eq]

lemma engStd_perm (h : df₁.Perm df₂) : engStd df₁ = engStd df₂ := by
  unfold engStd
  rw [h.length_eq, engVar_perm h]

lemma engagement_normalized_perm (h : df₁.Perm df₂) (r : Rec) :
    engagement_normalized df₁ r = engagement_normalized df₂ r := by
  unfold engagement_normalized
  rw [engStd_perm h, engMean_perm h]

lemma composite_signal_perm (h : df₁.Perm df₂) (r : Rec) :
    composite_signal df₁ r = composite_signal df₂ r := by
  unfold composite_signal
  rw [engagement_normalized_perm h r]

end PermInvariance

/-- C9: `aggregate_signals` is order-independent: a permutation of the input
record sequence produces an identical output series (exactly identical in
the real-number model, hence identical up to floating tolerance). -/
theorem c9_order_independent (b : Bool) (df₁ df₂ : List Rec) (w : ℕ)
    (h : df₁.Perm df₂) : aggregate_signals b df₁ w = aggregate_signals b df₂ w := by
  unfold aggregate_signals
  by_cases hnil : df₁ = []
  · subst hnil
    rw [h.symm.eq_nil]
  · have hnil₂ : df₂ ≠ [] := fun hh => hnil ((hh ▸ h).eq_nil)
    rw [List.isEmpty_eq_false.mpr hnil, List.isEmpty_eq_false.mpr hnil₂]
    cases b
    · rfl
    · simp only [Bool.not_true, Bool.or_false]
      have hmap : (df₁.map fun r => (r.timestamp, composite_signal df₁ r)).Perm
          (df₂.map fun r => (r.timestamp, composite_signal df₂ r)) := by
        rw [List.map_congr_left (fun r _ => by rw [composite_signal_perm h r])]
        exact h.map _
      exact resampleAgg_perm hmap w

/-- A record with some engagement, for the order-independence witness. -/
noncomputable def recB : Rec := ⟨20, -0.2, 3, 1, 2⟩

/-- C9, witness: swapping a concrete two-record batch leaves the output
unchanged. -/
theorem c9_order_independent_witness :
    aggregate_signals true [rec0, recB] 15 = aggregate_signals true [recB, rec0] 15 :=
  c9_order_independent true [rec0, recB] [recB, rec0] 15 (List.Perm.swap recB rec0 [])

/-! ## Claim C5: idempotence of the text normalizer -/

lemma stripUrlsAux_subset (k : ℕ) (l : List Char) : ∀ c ∈ stripUrlsAux k l, c ∈ l := by
  induction k, l using stripUrlsAux.induct with
  | case1 n =>
    intro c hc
    simp [stripUrlsAux] at hc
  | case2 k x cs ih =>
    intro c hc
    rw [stripUrlsAux] at hc
    exact List.mem_cons_of_mem x (ih c hc)
  | case3 =>
    intro c hc
    simp [stripUrlsAux] at hc
  | case4 x cs k hm ih =>
    intro c hc
    rw [stripUrlsAux, hm] at hc
    exact List.mem_cons_of_mem x (ih c hc)
  | case5 x cs hm ih =>
    intro c hc
    rw [stripUrlsAux, hm] at hc
    rcases List.mem_cons.mp hc with h | h
    · exact h ▸ List.mem_cons_self x cs
    · exact List.mem_cons_of_mem x (ih c h)

lemma stripMentionsAux_subset (k : ℕ) (l : List Char) : ∀ c ∈ stripMentionsAux k l, c ∈ l := by
  induction k, l using stripMentionsAux.induct with
  | case1 n =>
    intro c hc
    simp [stripMentionsAux] at hc
  | case2 k x cs ih =>
    intro c hc
    rw [stripMentionsAux] at hc
    exact List.mem_cons_of_mem x (ih c hc)
  | case3 =>
    intro c hc
    simp [stripMentionsAux] at hc
  | case4 x cs hcond ih =>
    intro c hc
    rw [stripMentionsAux, if_pos hcond] at hc
    exact List.mem_cons_of_mem x (ih c hc)
  | case5 cs hcond ih =>
    intro c hc
    rw [stripMentionsAux, if_neg hcond, if_pos rfl] at hc
    exact List.mem_cons_of_mem _ (ih c hc)
  | case6 x cs hcond hne ih =>
    intro c hc
    rw [stripMentionsAux, if_neg hcond, if_neg hne] at hc
    rcases List.mem_cons.mp hc with h | h
    · exact h ▸ List.mem_cons_self x cs
    · exact List.mem_cons_of_mem x (ih c h)

/-- A list of word/whitespace characters contains no `@` and no `#`, so the
mention pass leaves it unchanged. -/
lemma stripMentions_eq_self {l : List Char}
    (h : ∀ c ∈ l, (pyIsWordChar c || pyIsSpace c) = true) : stripMentions l = l := by
  unfold stripMentions
  induction l with
  | nil => rfl
  | cons c cs ih =>
    have hc := h c (List.mem_cons_self c cs)
    have hat : c ≠ '@' := by
      intro hh
      subst hh
      exact absurd hc (by decide)
    have hhash : c ≠ '#' := by
      intro hh
      subst hh
      exact absurd hc (by decide)
    rw [stripMentionsAux, if_neg (fun hh => hat hh.1), if_neg hhash,
      ih (fun d hd => h d (List.mem_cons_of_mem c hd))]

lemma stripPunct_chars {l : List Char} : ∀ c ∈ stripPunct l, (pyIsWordChar c || pyIsSpace c) = true :=
  fun _ hc => (List.mem_filter.mp hc).2

lemma stripPunct_eq_self {l : List Char}
    (h : ∀ c ∈ l, (pyIsWordChar c || pyIsSpace c) = true) : stripPunct l = l :=
  List.filter_eq_self.mpr h

lemma pyStrip_subset (l : List Char) : ∀ c ∈ pyStrip l, c ∈ l := by
  intro c hc
  unfold pyStrip at hc
  rw [List.mem_reverse] at hc
  have hc2 := (List.dropWhile_sublist pyIsSpace).subset hc
  rw [List.mem_reverse] at hc2
  exact (List.dropWhile_sublist pyIsSpace).subset hc2

lemma dropWhile_dropWhile_self (p : Char → Bool) (l : List Char) :
    (l.dropWhile p).dropWhile p = l.dropWhile p := by
  cases h : l.dropWhile p with
  | nil => rfl
  | cons a as =>
    have hfail := List.head?_dropWhile_not p l
    rw [h] at hfail
    simp only [List.head?_cons] at hfail
    rw [List.dropWhile_cons, hfail]
    simp

/-- `str.strip()` commutes with `str.lower()` (lowercasing preserves
whitespace-ness). -/
lemma pyStrip_pyLower (l : List Char) : pyStrip (pyLower l) = pyLower (pyStrip l) := by
  have hpf : (pyIsSpace ∘ pyToLower) = pyIsSpace := funext pyIsSpace_pyToLower
  unfold pyStrip pyLower
  rw [List.dropWhile_map, hpf, ← List.map_reverse, List.dropWhile_map, hpf, ← List.map_reverse]

/-- The head of a right-trimmed list is the head of the list. -/
lemma head?_rstrip {l : List Char} {a : Char} {as : List Char}
    (h : (l.reverse.dropWhile pyIsSpace).reverse = a :: as) : l.head? = some a := by
  have hsplit : l.reverse.takeWhile pyIsSpace ++ l.reverse.dropWhile pyIsSpace = l.reverse :=
    List.takeWhile_append_dropWhile pyIsSpace l.reverse
  have hl : l = (l.reverse.dropWhile pyIsSpace).reverse ++ (l.reverse.takeWhile pyIsSpace).reverse := by
    conv_lhs => rw [← List.reverse_reverse l, ← hsplit]
    rw [List.reverse_append]
  rw [hl, h, List.head?_append]
  rfl

/-- `str.strip()` is idempotent. -/
lemma pyStrip_idem (l : List Char) : pyStrip (pyStrip l) = pyStrip l := by
  unfold pyStrip
  set y := l.dropWhile pyIsSpace with hy
  have hstep : ((y.reverse.dropWhile pyIsSpace).reverse).dropWhile pyIsSpace =
      (y.reverse.dropWhile pyIsSpace).reverse := by
    cases hR : (y.reverse.dropWhile pyIsSpace).reverse with
    | nil => rfl
    | cons a as =>
      have hhead : y.head? = some a := head?_rstrip hR
      have hfail := List.head?_dropWhile_not pyIsSpace l
      rw [← hy, hhead] at hfail
      simp only at hfail
      rw [List.dropWhile_cons, hfail]
      simp
  rw [hstep, List.reverse_reverse, dropWhile_dropWhile_self]

/-- `str.lower()` is idempotent. -/
lemma pyLower_idem (l : List Char) : pyLower (pyLower l) = pyLower l := by
  unfold pyLower
  rw [List.map_map]
  exact List.map_congr_left (fun c _ => pyToLower_idem c)

/-- Every character of a normalized text is a word or whitespace character. -/
lemma clean_chars (s : String) :
    ∀ c ∈ (clean_tweet_content s).data, (pyIsWordChar c || pyIsSpace c) = true := by
  intro c hc
  have hc' : c ∈ pyLower (pyStrip (stripPunct (stripMentions (stripUrls s.data)))) := hc
  unfold pyLower at hc'
  rw [List.mem_map] at hc'
  obtain ⟨d, hd, rfl⟩ := hc'
  exact wos_pyToLower (stripPunct_chars d (pyStrip_subset _ d hd))

/-- C5, counterexample: the text normalizer is not idempotent.  On `"h#ttpx"`
the first pass only removes the `#`, producing `"httpx"`; the second pass
then matches `"httpx"` as a URL and removes it entirely. -/
theorem c5_counterexample :
    clean_tweet_content (clean_tweet_content "h#ttpx") ≠ clean_tweet_content "h#ttpx" := by
  decide

/-- C5, amended: the normalizer is idempotent exactly on the inputs whose
normalized form the URL-removal pass leaves unchanged.  Deleting markers or
punctuation can splice the remaining characters into a new URL-shaped token
(`"h#ttpx"` → `"httpx"` → `""`), and URL removal is the only pass that can
still act on a normalized text: a normalized text contains only word and
whitespace characters, no leading or trailing whitespace, and no uppercase
letters, so the mention, punctuation, strip and lowercase passes all fix it. -/
theorem c5_idempotent_unless_url (s : String)
    (hU : stripUrls (clean_tweet_content s).data = (clean_tweet_content s).data) :
    clean_tweet_content (clean_tweet_content s) = clean_tweet_content s := by
  have hwos := clean_chars s
  have h1 : stripMentions (clean_tweet_content s).data = (clean_tweet_content s).data :=
    stripMentions_eq_self hwos
  have h2 : stripPunct (clean_tweet_content s).data = (clean_tweet_content s).data :=
    stripPunct_eq_self hwos
  have h3 : pyStrip (clean_tweet_content s).data = (clean_tweet_content s).data := by
    show pyStrip (pyLower (pyStrip (stripPunct (stripMentions (stripUrls s.data))))) =
      pyLower (pyStrip (stripPunct (stripMentions (stripUrls s.data))))
    rw [pyStrip_pyLower, pyStrip_idem]
  have h4 : pyLower (clean_tweet_content s).data = (clean_tweet_content s).data := by
    show pyLower (pyLower (pyStrip (stripPunct (stripMentions (stripUrls s.data))))) =
      pyLower (pyStrip (stripPunct (stripMentions (stripUrls s.data))))
    exact pyLower_idem _
  show String.mk (pyLower (pyStrip (stripPunct (stripMentions
    (stripUrls (clean_tweet_content s).data))))) = clean_tweet_content s
  rw [hU, h1, h2, h3, h4]

/-- C5, witness: the conditional idempotence applied to a concrete input
whose normalized form contains no URL-shaped token. -/
theorem c5_idempotent_unless_url_witness :
    clean_tweet_content (clean_tweet_content "Hello World!") =
      clean_tweet_content "Hello World!" :=
  c5_idempotent_unless_url "Hello World!" (by decide)

end TwitterSignals
